import Mathlib

/-!
Shallow embedding of the single-symbol limit order book in `src/src/main.rs`
(crate `matching-engine`).

Modelling conventions:
* `u64` values (prices, quantities) are `Nat`.  The sentinel `u64::MAX` is the
  explicit constant `U64MAX`; `u64::MIN` is `0`.  No arithmetic in the source
  can overflow on the inputs the claims quantify over (fill sums are bounded by
  the submitted quantity), so no `% 2^64` reduction is needed.
* `Uuid::new_v4()` produces fresh globally-unique opaque order identifiers.
  The embedding replaces the random UUID string by a monotone counter
  `next_id : Nat` threaded through the `OrderBook`; the spec only requires
  uniqueness and equality comparison of identifiers.
* `BTreeMap<u64, usize>` (price -> level index, iterated in ascending key
  order; `.rev()` / `next_back()` give descending order) is a price-sorted
  association list `List (Nat × Nat)`; `HashMap<String, (Side, usize)>` is an
  association list `List (Nat × Side × Nat)` (iteration order is never
  observed, only get / insert / remove).
* `VecDeque<Order>` is a `List Order` (push_back appends at the tail,
  iteration is front to back, `retain` is `List.filter`).
* Rust panics (indexing a `BTreeMap` with a missing key, `Vec` out-of-bounds
  indexing, `Option::unwrap` on `None`) are embedded as `Option.none` results.
-/

namespace Engine

/-- Side of an order (`enum Side` in the source). -/
inductive Side where
  | Ask
  | Bid
deriving DecidableEq, Repr

/-- Status carried by a fill result (`enum OrderStatus` in the source). -/
inductive OrderStatus where
  | Uninitialized
  | Created
  | Filled
  | PartiallyFilled
deriving DecidableEq, Repr

/-- Sentinel `u64::MAX`, the initial "no ask" best price. -/
def U64MAX : Nat := 18446744073709551615

/-- Result of a submit (`struct FillResult`).  Entries of `filled_orders` are
`(qty, price)` pairs, matching the source comment "Orders filled (qty, price)"
and the pushes `filled_orders.push((matched_qty, *x))`. -/
structure FillResult where
  filled_orders : List (Nat × Nat)
  remaining_qty : Nat
  status : OrderStatus
deriving DecidableEq, Repr

/-- `FillResult::new()`: empty fills, `remaining_qty = u64::MAX`, status
`Uninitialized`.  `add_limit_order` always overwrites the last two fields. -/
def FillResult.new : FillResult :=
  ⟨[], U64MAX, OrderStatus.Uninitialized⟩

/-- The two sums computed by the loop of `FillResult::avg_fill_price`:
`total_price_paid = Σ p * q` and `total_qty = Σ q` over the `(q, p)` entries.
The source then returns `total_price_paid as f32 / total_qty as f32`
unconditionally; when `total_qty = 0` that is the floating-point division
`0.0 / 0.0`, which yields NaN — there is no error path. -/
def FillResult.avg_totals (r : FillResult) : Nat × Nat :=
  r.filled_orders.foldl (fun acc qp => (acc.1 + qp.2 * qp.1, acc.2 + qp.1)) (0, 0)

/-- Value of the division performed by `avg_fill_price`, embedded exactly as a
rational when the denominator is nonzero; `none` stands for the NaN produced
by the source's `0.0 / 0.0` when no quantity was filled. -/
def FillResult.avg_fill_price (r : FillResult) : Option ℚ :=
  if r.avg_totals.2 = 0 then none
  else some ((r.avg_totals.1 : ℚ) / (r.avg_totals.2 : ℚ))

/-- A resting order (`struct Order`); the id is the UUID string, modelled as a
`Nat` drawn from the book's fresh-id counter. -/
structure Order where
  order_id : Nat
  qty : Nat
deriving DecidableEq, Repr

/-- One side of the book (`struct HalfBook`): the sorted price -> level-index
map and the backing vector of FIFO levels. -/
structure HalfBook where
  s : Side
  price_map : List (Nat × Nat)
  price_levels : List (List Order)
deriving DecidableEq, Repr

/-- `HalfBook::new`. -/
def HalfBook.new (s : Side) : HalfBook := ⟨s, [], []⟩

/-- Lookup in the price map (`BTreeMap::get` / index).  `none` when the price
has no level. -/
def lookupPrice (price : Nat) : List (Nat × Nat) → Option Nat
  | [] => none
  | (k, v) :: rest => if price = k then some v else lookupPrice price rest

/-- Sorted insertion into the price map (`BTreeMap::insert`; only ever called
with a key that is absent, so no replacement case arises on the book's states). -/
def insertPrice (price v : Nat) : List (Nat × Nat) → List (Nat × Nat)
  | [] => [(price, v)]
  | (k, w) :: rest =>
    if price ≤ k then (price, v) :: (k, w) :: rest
    else (k, w) :: insertPrice price v rest

/-- `HalfBook::get_total_qty`: `self.price_levels[self.price_map[&price]]`
summed.  Both indexings panic in Rust when out of range / absent; the panic is
the `none` case (the failure the spec names `UnknownPriceLevel`). -/
def HalfBook.get_total_qty (hb : HalfBook) (price : Nat) : Option Nat :=
  match lookupPrice price hb.price_map with
  | none => none
  | some idx =>
    match hb.price_levels.get? idx with
    | none => none
    | some lvl => some ((lvl.map Order.qty).sum)

/-- Lookup in the order-location index (`HashMap::get`). -/
def locLookup (id : Nat) : List (Nat × Side × Nat) → Option (Side × Nat)
  | [] => none
  | (k, v) :: rest => if id = k then some v else locLookup id rest

/-- `HashMap::remove`. -/
def locRemove (id : Nat) (l : List (Nat × Side × Nat)) : List (Nat × Side × Nat) :=
  l.filter (fun e => e.1 ≠ id)

/-- `HashMap::insert` (replacing semantics; keys are fresh ids in practice). -/
def locInsert (id : Nat) (v : Side × Nat) (l : List (Nat × Side × Nat)) :
    List (Nat × Side × Nat) :=
  (id, v) :: locRemove id l

/-- Remove a batch of ids (the `order_loc.remove` calls made during one level
match, applied in loop order). -/
def locRemoveAll (ids : List Nat) (l : List (Nat × Side × Nat)) :
    List (Nat × Side × Nat) :=
  ids.foldl (fun acc i => locRemove i acc) l

/-- The whole book (`struct OrderBook`). -/
structure OrderBook where
  symbol : String
  best_ask_price : Nat
  best_bid_price : Nat
  ask_book : HalfBook
  bid_book : HalfBook
  order_loc : List (Nat × Side × Nat)
  next_id : Nat
deriving DecidableEq, Repr

/-- `OrderBook::new`: sentinels `u64::MAX` / `u64::MIN` for the best prices. -/
def OrderBook.new (symbol : String) : OrderBook :=
  ⟨symbol, U64MAX, 0, HalfBook.new Side.Ask, HalfBook.new Side.Bid, [], 0⟩

/-- Outcome of `OrderBook::cancel_order` (`Result<String, &str>`): `ok id`
stands for `Ok("Successfully cancelled order {id}!")` and `err` for
`Err("No valid order id!")`. -/
inductive CancelResult where
  | ok (order_id : Nat)
  | err
deriving DecidableEq, Repr

/-- `OrderBook::cancel_order`.  The `none` result embeds the
`get_mut(*price_level).unwrap()` panic on a dangling level index (unreachable
on the book's own states). -/
def OrderBook.cancel_order (b : OrderBook) (order_id : Nat) :
    Option (OrderBook × CancelResult) :=
  match locLookup order_id b.order_loc with
  | none => some (b, CancelResult.err)
  | some (side, price_level) =>
    let lvls := match side with
      | Side.Ask => b.ask_book.price_levels
      | Side.Bid => b.bid_book.price_levels
    match lvls.get? price_level with
    | none => none
    | some dq =>
      let dq2 := dq.filter (fun o => o.order_id ≠ order_id)
      let b2 := match side with
        | Side.Ask => { b with ask_book :=
            { b.ask_book with price_levels := b.ask_book.price_levels.set price_level dq2 } }
        | Side.Bid => { b with bid_book :=
            { b.bid_book with price_levels := b.bid_book.price_levels.set price_level dq2 } }
      some ({ b2 with order_loc := locRemove order_id b2.order_loc }, CancelResult.ok order_id)

/-- Half-book selection by side (the `match s` / `match side` dispatches of
`create_new_limit_order` and `cancel_order`). -/
def sideBook (b : OrderBook) (s : Side) : HalfBook :=
  match s with
  | Side.Ask => b.ask_book
  | Side.Bid => b.bid_book

/-- Insert a fresh order into a half book at `price` (the body of
`create_new_limit_order` after the side was selected): push onto the existing
level, or append a brand-new level and register its index. -/
def HalfBook.addOrder (hb : HalfBook) (order : Order) (price : Nat) : HalfBook × Nat :=
  match lookupPrice price hb.price_map with
  | some idx =>
    ({ hb with price_levels :=
        hb.price_levels.set idx (hb.price_levels.getD idx [] ++ [order]) }, idx)
  | none =>
    let newLoc := hb.price_levels.length
    ({ hb with
        price_map := insertPrice price newLoc hb.price_map,
        price_levels := hb.price_levels ++ [[order]] }, newLoc)

/-- `OrderBook::create_new_limit_order`: draw a fresh id, add the order to the
side's book, register it in `order_loc`; returns the new id. -/
def OrderBook.create_new_limit_order (b : OrderBook) (s : Side) (price qty : Nat) :
    OrderBook × Nat :=
  let order_id := b.next_id
  match s with
  | Side.Ask =>
    let r := b.ask_book.addOrder ⟨order_id, qty⟩ price
    ({ b with
        ask_book := r.1,
        order_loc := locInsert order_id (Side.Ask, r.2) b.order_loc,
        next_id := b.next_id + 1 }, order_id)
  | Side.Bid =>
    let r := b.bid_book.addOrder ⟨order_id, qty⟩ price
    ({ b with
        bid_book := r.1,
        order_loc := locInsert order_id (Side.Bid, r.2) b.order_loc,
        next_id := b.next_id + 1 }, order_id)

/-- First price of the list whose level is non-empty (the body of each of the
two scans in `update_bbo`; the bid scan passes the price map reversed). -/
def bestNonEmpty (pm : List (Nat × Nat)) (lvls : List (List Order)) : Option Nat :=
  match pm.find? (fun pu => !(lvls.getD pu.2 []).isEmpty) with
  | some pu => some pu.1
  | none => none

/-- `OrderBook::update_bbo`: scan the bid map from highest to lowest price and
set `best_bid_price` to the first non-empty level's price; symmetrically for
asks from lowest to highest.  When a scan finds no non-empty level the field is
left UNCHANGED (the loop just never assigns). -/
def OrderBook.update_bbo (b : OrderBook) : OrderBook :=
  { b with
    best_bid_price :=
      (bestNonEmpty b.bid_book.price_map.reverse b.bid_book.price_levels).getD b.best_bid_price,
    best_ask_price :=
      (bestNonEmpty b.ask_book.price_map b.ask_book.price_levels).getD b.best_ask_price }

/-- Result of matching one price level (`match_at_price_level`): the level
contents, the remaining incoming quantity, the quantity done at this level,
and the ids removed from `order_loc`. -/
structure LevelMatch where
  level : List Order
  remaining : Nat
  done : Nat
  removed : List Nat
deriving DecidableEq, Repr

/-- The `for o in price_level.iter_mut()` pass of `match_at_price_level`: a
resting order with `qty ≤ remaining` is zeroed (and its id removed from the
index), otherwise it is decremented by the whole remaining quantity, which
drops to 0; the loop always continues to the end of the level.  `level` is the
level content before the final `retain`. -/
def matchPass : List Order → Nat → LevelMatch
  | [], q => ⟨[], q, 0, []⟩
  | o :: rest, q =>
    if o.qty ≤ q then
      let m := matchPass rest (q - o.qty)
      ⟨⟨o.order_id, 0⟩ :: m.level, m.remaining, o.qty + m.done, o.order_id :: m.removed⟩
    else
      let m := matchPass rest 0
      ⟨⟨o.order_id, o.qty - q⟩ :: m.level, m.remaining, q + m.done, m.removed⟩

/-- `match_at_price_level`: the mutating pass followed by
`price_level.retain(|x| x.qty != 0)`. -/
def match_at_price_level (level : List Order) (q : Nat) : LevelMatch :=
  let m := matchPass level q
  { m with level := m.level.filter (fun o => o.qty ≠ 0) }

/-- State threaded through the price-level walk of `add_limit_order`. -/
structure WalkOut where
  levels : List (List Order)
  remaining : Nat
  loc : List (Nat × Side × Nat)
  fills : List (Nat × Nat)
deriving DecidableEq, Repr

/-- The matching loop of `add_limit_order`: walk the opposing price map in the
given iteration order, and while the head price `x` still crosses (`cross x`),
match the incoming remainder against the level at `price_map[x]`, recording a
`(done, x)` fill entry when anything matched; stop at the first non-crossing
price or when the map is exhausted.  The loop does NOT stop early when the
remaining quantity reaches 0 (it keeps visiting crossing levels, matching 0). -/
def walkLevels (cross : Nat → Bool) :
    List (Nat × Nat) → List (List Order) → Nat → List (Nat × Side × Nat) →
    List (Nat × Nat) → WalkOut
  | [], lvls, q, loc, fills => ⟨lvls, q, loc, fills⟩
  | (x, idx) :: rest, lvls, q, loc, fills =>
    if cross x then
      let m := match_at_price_level (lvls.getD idx []) q
      walkLevels cross rest (lvls.set idx m.level) m.remaining (locRemoveAll m.removed loc)
        (if m.done ≠ 0 then fills ++ [(m.done, x)] else fills)
    else ⟨lvls, q, loc, fills⟩

/-- The matching loop phase of `add_limit_order`: a `Bid` walks the ask map in
ascending price order with cross condition `price >= x`; an `Ask` walks the
bid map in descending order (`next_back`) with cross condition `price <= x`.
Returns the book with the opposing levels and the order index updated,
together with the walk state. -/
def OrderBook.matchStep (b : OrderBook) (s : Side) (price order_qty : Nat) :
    OrderBook × WalkOut :=
  match s with
  | Side.Bid =>
    let w := walkLevels (fun x => decide (x ≤ price)) b.ask_book.price_map
      b.ask_book.price_levels order_qty b.order_loc []
    ({ b with
        ask_book := { b.ask_book with price_levels := w.levels },
        order_loc := w.loc }, w)
  | Side.Ask =>
    let w := walkLevels (fun x => decide (price ≤ x)) b.bid_book.price_map.reverse
      b.bid_book.price_levels order_qty b.order_loc []
    ({ b with
        bid_book := { b.bid_book with price_levels := w.levels },
        order_loc := w.loc }, w)

/-- `OrderBook::add_limit_order`: run the matching loop, build the fill result
(status `Created` when nothing at all was filled, `PartiallyFilled` when
something but not all, `Filled` when the remainder is 0), rest any leftover
quantity as a new order on the incoming side at the incoming price, and
recompute the BBO. -/
def OrderBook.add_limit_order (b : OrderBook) (s : Side) (price order_qty : Nat) :
    OrderBook × FillResult :=
  let step := b.matchStep s price order_qty
  let b1 := step.1
  let w := step.2
  let fill_result : FillResult :=
    { filled_orders := w.fills, remaining_qty := w.remaining,
      status :=
        if w.remaining ≠ 0 then
          if w.remaining = order_qty then OrderStatus.Created
          else OrderStatus.PartiallyFilled
        else OrderStatus.Filled }
  let b2 := if w.remaining ≠ 0 then (b1.create_new_limit_order s price w.remaining).1 else b1
  (b2.update_bbo, fill_result)

/-- Sum of the filled quantities of a fill-entry list (`(qty, price)` pairs). -/
def sumFilled (fills : List (Nat × Nat)) : Nat :=
  (fills.map Prod.fst).sum

/-- Concrete book used below: one resting ask of qty 10 at price 100 (id 0). -/
def exampleOneAsk : OrderBook :=
  ((OrderBook.new "S").add_limit_order Side.Ask 100 10).1

/-- The book `exampleOneAsk` after its single order is cancelled: the level
and the index are emptied, the best prices stay as they were. -/
def exampleOneAskCancelled : OrderBook :=
  { symbol := "S",
    best_ask_price := 100,
    best_bid_price := 0,
    ask_book := ⟨Side.Ask, [(100, 0)], [[]]⟩,
    bid_book := ⟨Side.Bid, [], []⟩,
    order_loc := [],
    next_id := 1 }

/-! Well-formedness predicates and reachability.  These describe the book
states the program itself produces; they are proved to hold along every run
(`ReachableBySubmits`). -/

/-- The price map is strictly sorted by price, matching `BTreeMap` key order. -/
def PmSorted (pm : List (Nat × Nat)) : Prop :=
  List.Pairwise (fun a b => a.1 < b.1) pm

instance (pm : List (Nat × Nat)) : Decidable (PmSorted pm) := by
  unfold PmSorted
  infer_instance

/-- Every level index stored in the price map points into `price_levels`. -/
def IdxOk (hb : HalfBook) : Prop :=
  ∀ pu ∈ hb.price_map, pu.2 < hb.price_levels.length

/-- Distinct prices use distinct backing levels. -/
def IdxNodup (hb : HalfBook) : Prop :=
  (hb.price_map.map Prod.snd).Nodup

/-- Structural well-formedness of one half book. -/
def StructOk (hb : HalfBook) : Prop :=
  PmSorted hb.price_map ∧ IdxOk hb ∧ IdxNodup hb

/-- Price `p` has a registered, currently non-empty level in the pair
(price map, levels). -/
def NonEmptyPair (pm : List (Nat × Nat)) (lvls : List (List Order)) (p : Nat) : Prop :=
  ∃ i, (p, i) ∈ pm ∧ lvls.getD i [] ≠ []

/-- Price `p` has a registered, currently non-empty level on this side. -/
def nonEmptyAt (hb : HalfBook) (p : Nat) : Prop :=
  NonEmptyPair hb.price_map hb.price_levels p

/-- The side holds at least one resting order. -/
def HasNonEmpty (hb : HalfBook) : Prop :=
  ∃ p, nonEmptyAt hb p

/-- Every resting bid price is strictly below every resting ask price (the
book of actually-resting orders is never crossed). -/
def NotCrossed (b : OrderBook) : Prop :=
  ∀ p q, nonEmptyAt b.bid_book p → nonEmptyAt b.ask_book q → p < q

/-- The cached best prices agree with the ladders whenever the respective side
is non-empty. -/
def BboOk (b : OrderBook) : Prop :=
  (HasNonEmpty b.bid_book →
    nonEmptyAt b.bid_book b.best_bid_price ∧
    ∀ p, nonEmptyAt b.bid_book p → p ≤ b.best_bid_price) ∧
  (HasNonEmpty b.ask_book →
    nonEmptyAt b.ask_book b.best_ask_price ∧
    ∀ p, nonEmptyAt b.ask_book p → b.best_ask_price ≤ p)

/-- Invariant maintained by every sequence of submits. -/
def Inv (b : OrderBook) : Prop :=
  StructOk b.bid_book ∧ StructOk b.ask_book ∧ NotCrossed b ∧ BboOk b

/-- Book states produced by some sequence of `add_limit_order` calls starting
from a fresh book. -/
inductive ReachableBySubmits : OrderBook → Prop
  | base (symbol : String) : ReachableBySubmits (OrderBook.new symbol)
  | step (b : OrderBook) (s : Side) (price qty : Nat) :
      ReachableBySubmits b → ReachableBySubmits (b.add_limit_order s price qty).1

/-- Every resting order on this side has positive remaining quantity (true of
all states the program produces: zeroed orders are retained out immediately). -/
def LevelsPos (hb : HalfBook) : Prop :=
  ∀ lvl ∈ hb.price_levels, ∀ o ∈ lvl, 0 < o.qty

/-! Lemmas about `matchPass` / `match_at_price_level`. -/

theorem matchPass_conservation (l : List Order) (q : Nat) :
    (matchPass l q).remaining + (matchPass l q).done = q := by
  induction l generalizing q with
  | nil => simp [matchPass]
  | cons o rest ih =>
    by_cases h : o.qty ≤ q
    · have := ih (q - o.qty)
      simp only [matchPass, if_pos h]
      omega
    · have := ih 0
      simp only [matchPass, if_neg h]
      omega

theorem matchPass_length (l : List Order) (q : Nat) :
    (matchPass l q).level.length = l.length := by
  induction l generalizing q with
  | nil => simp [matchPass]
  | cons o rest ih =>
    by_cases h : o.qty ≤ q
    · simp [matchPass, if_pos h, ih]
    · simp [matchPass, if_neg h, ih]

theorem matchPass_zero_level (l : List Order) :
    (matchPass l 0).level = l := by
  induction l with
  | nil => simp [matchPass]
  | cons o rest ih =>
    obtain ⟨oid, oqty⟩ := o
    by_cases h : oqty = 0
    · subst h
      simp [matchPass, ih]
    · simp [matchPass, h, ih]

theorem matchPass_zero_remaining (l : List Order) :
    (matchPass l 0).remaining = 0 := by
  induction l with
  | nil => simp [matchPass]
  | cons o rest ih =>
    obtain ⟨oid, oqty⟩ := o
    by_cases h : oqty = 0
    · subst h
      simpa [matchPass] using ih
    · simp [matchPass, h, ih]

theorem matchPass_zero_done (l : List Order) :
    (matchPass l 0).done = 0 := by
  induction l with
  | nil => simp [matchPass]
  | cons o rest ih =>
    obtain ⟨oid, oqty⟩ := o
    by_cases h : oqty = 0
    · subst h
      simpa [matchPass] using ih
    · simp [matchPass, h, ih]

theorem matchPass_zero_removed_of_pos (l : List Order) (hpos : ∀ o ∈ l, 0 < o.qty) :
    (matchPass l 0).removed = [] := by
  induction l with
  | nil => simp [matchPass]
  | cons o rest ih =>
    obtain ⟨oid, oqty⟩ := o
    have ho : 0 < oqty := hpos ⟨oid, oqty⟩ (List.mem_cons_self _ rest)
    have h : oqty ≠ 0 := by omega
    simp only [matchPass]
    rw [if_neg (by omega : ¬oqty ≤ 0)]
    exact ih (fun o ho => hpos o (List.mem_cons_of_mem _ ho))

theorem matchPass_all_zero_of_remaining_pos (l : List Order) (q : Nat)
    (h : 0 < (matchPass l q).remaining) :
    ∀ o ∈ (matchPass l q).level, o.qty = 0 := by
  induction l generalizing q with
  | nil => simp [matchPass]
  | cons o rest ih =>
    by_cases hle : o.qty ≤ q
    · simp only [matchPass, if_pos hle] at h ⊢
      intro o2 ho2
      rcases List.mem_cons.mp ho2 with h1 | h1
      · simp [h1]
      · exact ih (q - o.qty) h o2 h1
    · simp only [matchPass, if_neg hle] at h
      have := matchPass_zero_remaining rest
      omega

theorem match_level_conservation (l : List Order) (q : Nat) :
    (match_at_price_level l q).remaining + (match_at_price_level l q).done = q := by
  simpa [match_at_price_level] using matchPass_conservation l q

theorem match_level_empty_of_remaining_pos (l : List Order) (q : Nat)
    (h : 0 < (match_at_price_level l q).remaining) :
    (match_at_price_level l q).level = [] := by
  simp only [match_at_price_level] at h ⊢
  refine List.filter_eq_nil_iff.mpr ?_
  intro o ho
  have := matchPass_all_zero_of_remaining_pos l q h o ho
  simp [this]

theorem match_level_nil (q : Nat) : match_at_price_level [] q = ⟨[], q, 0, []⟩ := by
  simp [match_at_price_level, matchPass]

theorem match_level_src_nonempty (l : List Order) (q : Nat)
    (h : (match_at_price_level l q).level ≠ []) : l ≠ [] := by
  intro hl
  subst hl
  simp [match_level_nil] at h

/-! Small general-purpose list lemmas (stated over arbitrary types). -/

theorem getD_set_self {α : Type _} (l : List α) (i : Nat) (v d : α) (h : i < l.length) :
    (l.set i v).getD i d = v := by
  simp [List.getD_eq_getElem?_getD, List.getElem?_set_self h]

theorem getD_set_ne {α : Type _} (l : List α) (i j : Nat) (v d : α) (h : i ≠ j) :
    (l.set i v).getD j d = l.getD j d := by
  simp [List.getD_eq_getElem?_getD, List.getElem?_set_ne h]

theorem getD_set_cases {α : Type _} (l : List α) (i j : Nat) (v d : α) :
    (l.set i v).getD j d = v ∨ (l.set i v).getD j d = l.getD j d := by
  by_cases hij : i = j
  · subst hij
    by_cases hlt : i < l.length
    · exact Or.inl (getD_set_self l i v d hlt)
    · right
      rw [List.set_eq_of_length_le (by omega)]
  · exact Or.inr (getD_set_ne l i j v d hij)

theorem getD_append_lt {α : Type _} (l l2 : List α) (i : Nat) (d : α) (h : i < l.length) :
    (l ++ l2).getD i d = l.getD i d := by
  simp [List.getD_eq_getElem?_getD, List.getElem?_append, h]

theorem getD_append_self {α : Type _} (l : List α) (a d : α) :
    (l ++ [a]).getD l.length d = a := by
  simp [List.getD_eq_getElem?_getD, List.getElem?_append_right (Nat.le_refl _)]

/-! Lemmas about the price-map association list. -/

theorem lookupPrice_mem {price i : Nat} {pm : List (Nat × Nat)}
    (h : lookupPrice price pm = some i) : (price, i) ∈ pm := by
  induction pm with
  | nil => simp [lookupPrice] at h
  | cons kv rest ih =>
    obtain ⟨k, v⟩ := kv
    by_cases hk : price = k
    · subst hk
      simp [lookupPrice] at h
      simp [h]
    · simp only [lookupPrice, if_neg hk] at h
      exact List.mem_cons_of_mem _ (ih h)

theorem lookupPrice_none {price : Nat} {pm : List (Nat × Nat)}
    (h : lookupPrice price pm = none) : ∀ kv ∈ pm, kv.1 ≠ price := by
  induction pm with
  | nil => simp
  | cons kv rest ih =>
    obtain ⟨k, v⟩ := kv
    by_cases hk : price = k
    · subst hk
      simp [lookupPrice] at h
    · simp only [lookupPrice, if_neg hk] at h
      intro kv2 hkv2
      rcases List.mem_cons.mp hkv2 with h1 | h1
      · subst h1
        simpa using fun hne => hk hne.symm
      · exact ih h kv2 h1

theorem mem_insertPrice {kv : Nat × Nat} {price v : Nat} {pm : List (Nat × Nat)} :
    kv ∈ insertPrice price v pm ↔ kv = (price, v) ∨ kv ∈ pm := by
  induction pm with
  | nil => simp [insertPrice]
  | cons hd rest ih =>
    obtain ⟨k, w⟩ := hd
    by_cases hle : price ≤ k
    · simp [insertPrice, if_pos hle, List.mem_cons]
    · simp only [insertPrice, if_neg hle, List.mem_cons, ih]
      tauto

theorem pairwise_insertPrice {price v : Nat} {pm : List (Nat × Nat)}
    (hs : PmSorted pm) (hfresh : ∀ kv ∈ pm, kv.1 ≠ price) :
    PmSorted (insertPrice price v pm) := by
  induction pm with
  | nil => simp [insertPrice, PmSorted]
  | cons hd rest ih =>
    obtain ⟨k, w⟩ := hd
    have hs2 : PmSorted rest := (List.pairwise_cons.mp hs).2
    have hhd : ∀ kv ∈ rest, k < kv.1 := (List.pairwise_cons.mp hs).1
    by_cases hle : price ≤ k
    · have hkp : k ≠ price := hfresh (k, w) (List.mem_cons_self _ _)
      have hlt : price < k := by omega
      simp only [insertPrice, if_pos hle]
      refine List.pairwise_cons.mpr ⟨?_, hs⟩
      intro kv hkv
      rcases List.mem_cons.mp hkv with h1 | h1
      · simp [h1, hlt]
      · have := hhd kv h1
        simp only
        omega
    · simp only [insertPrice, if_neg hle]
      refine List.pairwise_cons.mpr ⟨?_, ih hs2 (fun kv hkv => hfresh kv (List.mem_cons_of_mem _ hkv))⟩
      intro kv hkv
      rcases mem_insertPrice.mp hkv with h1 | h1
      · simp only [h1]
        omega
      · exact hhd kv h1

theorem lookupPrice_insertPrice_self (price v : Nat) (pm : List (Nat × Nat)) :
    lookupPrice price (insertPrice price v pm) = some v := by
  induction pm with
  | nil => simp [insertPrice, lookupPrice]
  | cons hd rest ih =>
    obtain ⟨k, w⟩ := hd
    by_cases hle : price ≤ k
    · simp [insertPrice, if_pos hle, lookupPrice]
    · have hk : price ≠ k := by omega
      simp [insertPrice, if_neg hle, lookupPrice, hk, ih]

/-! Lemmas about `List.find?` over sorted lists, used for `update_bbo`. -/

theorem find?_first {α : Type _} {R : α → α → Prop} {pred : α → Bool} {l : List α} {a : α}
    (hp : List.Pairwise R l) (hf : l.find? pred = some a) :
    ∀ b ∈ l, pred b = true → b = a ∨ R a b := by
  induction l with
  | nil => simp at hf
  | cons hd rest ih =>
    by_cases hhd : pred hd
    · rw [List.find?_cons_of_pos _ hhd] at hf
      cases hf
      intro b hb _
      rcases List.mem_cons.mp hb with h1 | h1
      · exact Or.inl h1
      · exact Or.inr ((List.pairwise_cons.mp hp).1 b h1)
    · rw [List.find?_cons_of_neg _ (by simpa using hhd)] at hf
      intro b hb hpb
      rcases List.mem_cons.mp hb with h1 | h1
      · subst h1
        exact absurd hpb hhd
      · exact ih (List.pairwise_cons.mp hp).2 hf b h1 hpb

theorem find?_of_exists {α : Type _} {pred : α → Bool} {l : List α}
    (h : ∃ a ∈ l, pred a = true) : ∃ a, l.find? pred = some a := by
  have := List.find?_isSome.mpr h
  cases hf : l.find? pred with
  | none => rw [hf] at this; simp at this
  | some a => exact ⟨a, rfl⟩

theorem mem_takeWhile_of_pairwise {α : Type _} {R : α → α → Prop} {pred : α → Bool}
    {l : List α} (hp : List.Pairwise R l)
    (hmono : ∀ a b, R a b → pred b = true → pred a = true) :
    ∀ a ∈ l, pred a = true → a ∈ l.takeWhile pred := by
  induction l with
  | nil => simp
  | cons hd rest ih =>
    intro a ha hpa
    by_cases hhd : pred hd
    · rw [List.takeWhile_cons_of_pos hhd]
      rcases List.mem_cons.mp ha with h1 | h1
      · simp [h1]
      · exact List.mem_cons_of_mem _
          (ih (List.pairwise_cons.mp hp).2 a h1 hpa)
    · rcases List.mem_cons.mp ha with h1 | h1
      · subst h1
        exact absurd hpa hhd
      · exact absurd (hmono hd a ((List.pairwise_cons.mp hp).1 a h1) hpa) hhd

/-! Lemmas about the price-level walk of `add_limit_order`. -/

theorem sumFilled_append_one (fills : List (Nat × Nat)) (d x : Nat) :
    sumFilled (fills ++ [(d, x)]) = sumFilled fills + d := by
  simp [sumFilled]

theorem walk_levels_length (cross : Nat → Bool) (pm : List (Nat × Nat))
    (lvls : List (List Order)) (q : Nat) (loc : List (Nat × Side × Nat))
    (fills : List (Nat × Nat)) :
    (walkLevels cross pm lvls q loc fills).levels.length = lvls.length := by
  induction pm generalizing lvls q loc fills with
  | nil => simp [walkLevels]
  | cons hd rest ih =>
    obtain ⟨x, idx⟩ := hd
    by_cases hc : cross x
    · simp only [walkLevels, if_pos hc]
      rw [ih]
      exact List.length_set lvls idx _
    · simp [walkLevels, if_neg hc]

theorem walk_conservation (cross : Nat → Bool) (pm : List (Nat × Nat))
    (lvls : List (List Order)) (q : Nat) (loc : List (Nat × Side × Nat))
    (fills : List (Nat × Nat)) :
    (walkLevels cross pm lvls q loc fills).remaining +
      sumFilled (walkLevels cross pm lvls q loc fills).fills = q + sumFilled fills := by
  induction pm generalizing lvls q loc fills with
  | nil => simp [walkLevels]
  | cons hd rest ih =>
    obtain ⟨x, idx⟩ := hd
    by_cases hc : cross x
    · simp only [walkLevels, if_pos hc]
      rw [ih]
      have hm := match_level_conservation (lvls.getD idx []) q
      by_cases hd0 : (match_at_price_level (lvls.getD idx []) q).done ≠ 0
      · rw [if_pos hd0, sumFilled_append_one]
        omega
      · rw [if_neg hd0]
        omega
    · simp [walkLevels, if_neg hc]

theorem walk_remaining_le (cross : Nat → Bool) (pm : List (Nat × Nat))
    (lvls : List (List Order)) (q : Nat) (loc : List (Nat × Side × Nat))
    (fills : List (Nat × Nat)) :
    (walkLevels cross pm lvls q loc fills).remaining ≤ q := by
  induction pm generalizing lvls q loc fills with
  | nil => simp [walkLevels]
  | cons hd rest ih =>
    obtain ⟨x, idx⟩ := hd
    by_cases hc : cross x
    · simp only [walkLevels, if_pos hc]
      have h1 := ih (lvls.set idx (match_at_price_level (lvls.getD idx []) q).level)
        (match_at_price_level (lvls.getD idx []) q).remaining
        (locRemoveAll (match_at_price_level (lvls.getD idx []) q).removed loc)
        (if (match_at_price_level (lvls.getD idx []) q).done ≠ 0 then
          fills ++ [((match_at_price_level (lvls.getD idx []) q).done, x)] else fills)
      have h2 := match_level_conservation (lvls.getD idx []) q
      omega
    · simp [walkLevels, if_neg hc]

theorem walk_empty_stays (cross : Nat → Bool) (pm : List (Nat × Nat))
    (lvls : List (List Order)) (q : Nat) (loc : List (Nat × Side × Nat))
    (fills : List (Nat × Nat)) (j : Nat) (hj : lvls.getD j [] = []) :
    (walkLevels cross pm lvls q loc fills).levels.getD j [] = [] := by
  induction pm generalizing lvls q loc fills with
  | nil => simpa [walkLevels] using hj
  | cons hd rest ih =>
    obtain ⟨x, idx⟩ := hd
    by_cases hc : cross x
    · simp only [walkLevels, if_pos hc]
      apply ih
      by_cases hij : idx = j
      · subst hij
        have hm : (match_at_price_level (lvls.getD idx []) q).level = [] := by
          rw [hj, match_level_nil]
        rcases getD_set_cases lvls idx idx
          (match_at_price_level (lvls.getD idx []) q).level [] with h1 | h1
        · rw [h1, hm]
        · rw [h1, hj]
      · rw [getD_set_ne lvls idx j _ _ hij]
        exact hj
    · simpa [walkLevels, if_neg hc] using hj

theorem getD_oob {α : Type _} (l : List α) (i : Nat) (d : α) (h : l.length ≤ i) :
    l.getD i d = d := by
  rw [List.getD_eq_getElem?_getD, List.getElem?_eq_none h]
  rfl

theorem getD_set_self_or_default {α : Type _} (l : List α) (i : Nat) (v d : α) :
    (l.set i v).getD i d = v ∨ (l.set i v).getD i d = d := by
  by_cases hr : i < l.length
  · exact Or.inl (getD_set_self l i v d hr)
  · right
    rw [List.set_eq_of_length_le (by omega)]
    exact getD_oob l i d (by omega)

theorem walk_emptied (cross : Nat → Bool) (pm : List (Nat × Nat))
    (lvls : List (List Order)) (q : Nat) (loc : List (Nat × Side × Nat))
    (fills : List (Nat × Nat))
    (h : 0 < (walkLevels cross pm lvls q loc fills).remaining) :
    ∀ pu ∈ pm.takeWhile (fun pu => cross pu.1),
      (walkLevels cross pm lvls q loc fills).levels.getD pu.2 [] = [] := by
  induction pm generalizing lvls q loc fills with
  | nil => simp
  | cons hd rest ih =>
    obtain ⟨x, idx⟩ := hd
    by_cases hc : cross x
    · simp only [walkLevels, if_pos hc] at h ⊢
      rw [List.takeWhile_cons_of_pos (p := fun (pu : Nat × Nat) => cross pu.1) (by simpa using hc)]
      intro pu hpu
      have hrem : 0 < (match_at_price_level (lvls.getD idx []) q).remaining :=
        lt_of_lt_of_le h (walk_remaining_le cross rest _ _ _ _)
      have hlvl : (match_at_price_level (lvls.getD idx []) q).level = [] :=
        match_level_empty_of_remaining_pos _ _ hrem
      rcases List.mem_cons.mp hpu with h1 | h1
      · subst h1
        apply walk_empty_stays
        rcases getD_set_self_or_default lvls idx
          (match_at_price_level (lvls.getD idx []) q).level [] with h2 | h2
        · rw [h2, hlvl]
        · rw [h2]
      · exact ih _ _ _ _ h pu h1
    · intro pu hpu
      rw [List.takeWhile_cons_of_neg (p := fun (pu : Nat × Nat) => cross pu.1) (by simpa using hc)] at hpu
      simp at hpu

theorem walk_shrink (cross : Nat → Bool) (pm : List (Nat × Nat))
    (lvls : List (List Order)) (q : Nat) (loc : List (Nat × Side × Nat))
    (fills : List (Nat × Nat)) (j : Nat)
    (h : (walkLevels cross pm lvls q loc fills).levels.getD j [] ≠ []) :
    lvls.getD j [] ≠ [] := by
  induction pm generalizing lvls q loc fills with
  | nil => simpa [walkLevels] using h
  | cons hd rest ih =>
    obtain ⟨x, idx⟩ := hd
    by_cases hc : cross x
    · simp only [walkLevels, if_pos hc] at h
      have h2 := ih _ _ _ _ h
      by_cases hij : idx = j
      · subst hij
        by_cases hr : idx < lvls.length
        · rw [getD_set_self lvls idx _ _ hr] at h2
          exact match_level_src_nonempty _ _ h2
        · rw [List.set_eq_of_length_le (by omega)] at h2
          exact h2
      · rw [getD_set_ne lvls idx j _ _ hij] at h2
        exact h2
    · simpa [walkLevels, if_neg hc] using h

/-! Lemmas about `HalfBook.addOrder` (the body of `create_new_limit_order`). -/

theorem idx_inj {hb : HalfBook} (hnd : IdxNodup hb) {p1 p2 i : Nat}
    (h1 : (p1, i) ∈ hb.price_map) (h2 : (p2, i) ∈ hb.price_map) : p1 = p2 := by
  have := List.inj_on_of_nodup_map hnd h1 h2 rfl
  exact congrArg Prod.fst this

theorem insertPrice_perm (price v : Nat) (pm : List (Nat × Nat)) :
    (insertPrice price v pm).Perm ((price, v) :: pm) := by
  induction pm with
  | nil => simp [insertPrice]
  | cons hd rest ih =>
    obtain ⟨k, w⟩ := hd
    by_cases hle : price ≤ k
    · simp [insertPrice, if_pos hle]
    · simp only [insertPrice, if_neg hle]
      exact (List.Perm.cons _ ih).trans (List.Perm.swap _ _ _)

theorem addOrder_structOk (hb : HalfBook) (o : Order) (price : Nat) (h : StructOk hb) :
    StructOk (hb.addOrder o price).1 := by
  obtain ⟨hs, hidx, hnd⟩ := h
  cases hlk : lookupPrice price hb.price_map with
  | some idx =>
    refine ⟨?_, ?_, ?_⟩
    · simpa [HalfBook.addOrder, hlk, PmSorted] using hs
    · intro pu hpu
      simp only [HalfBook.addOrder, hlk] at hpu ⊢
      rw [List.length_set]
      exact hidx pu hpu
    · simpa [HalfBook.addOrder, hlk, IdxNodup] using hnd
  | none =>
    have hfresh : ∀ kv ∈ hb.price_map, kv.1 ≠ price := lookupPrice_none hlk
    refine ⟨?_, ?_, ?_⟩
    · simp only [HalfBook.addOrder, hlk]
      exact pairwise_insertPrice hs hfresh
    · intro pu hpu
      simp only [HalfBook.addOrder, hlk] at hpu ⊢
      rw [List.length_append]
      rcases mem_insertPrice.mp hpu with h1 | h1
      · simp [h1]
      · have := hidx pu h1
        simp only [List.length_cons, List.length_nil]
        omega
    · simp only [HalfBook.addOrder, hlk, IdxNodup]
      have hperm := (insertPrice_perm price hb.price_levels.length hb.price_map).map Prod.snd
      refine hperm.nodup_iff.mpr ?_
      simp only [List.map_cons, List.nodup_cons]
      refine ⟨?_, hnd⟩
      intro hmem
      simp only [List.mem_map] at hmem
      obtain ⟨pu, hpu, hsnd⟩ := hmem
      have := hidx pu hpu
      omega

theorem addOrder_nonEmpty_iff (hb : HalfBook) (o : Order) (price : Nat)
    (h : StructOk hb) (p : Nat) :
    nonEmptyAt (hb.addOrder o price).1 p ↔ nonEmptyAt hb p ∨ p = price := by
  obtain ⟨hs, hidx, hnd⟩ := h
  cases hlk : lookupPrice price hb.price_map with
  | some idx =>
    have hpm : (price, idx) ∈ hb.price_map := lookupPrice_mem hlk
    have hr : idx < hb.price_levels.length := hidx _ hpm
    simp only [HalfBook.addOrder, hlk, nonEmptyAt, NonEmptyPair]
    constructor
    · rintro ⟨i, hi, hne⟩
      by_cases hij : idx = i
      · subst hij
        exact Or.inr (idx_inj hnd hi hpm)
      · exact Or.inl ⟨i, hi, by rwa [getD_set_ne _ _ _ _ _ hij] at hne⟩
    · rintro (⟨i, hi, hne⟩ | hp)
      · refine ⟨i, hi, ?_⟩
        by_cases hij : idx = i
        · subst hij
          rw [getD_set_self _ _ _ _ hr]
          simp
        · rwa [getD_set_ne _ _ _ _ _ hij]
      · subst hp
        refine ⟨idx, hpm, ?_⟩
        rw [getD_set_self _ _ _ _ hr]
        simp
  | none =>
    simp only [HalfBook.addOrder, hlk, nonEmptyAt, NonEmptyPair]
    constructor
    · rintro ⟨i, hi, hne⟩
      rcases mem_insertPrice.mp hi with h1 | h1
      · simp only [Prod.mk.injEq] at h1
        exact Or.inr h1.1
      · have hlt : i < hb.price_levels.length := hidx _ h1
        rw [getD_append_lt _ _ _ _ hlt] at hne
        exact Or.inl ⟨i, h1, hne⟩
    · rintro (⟨i, hi, hne⟩ | hp)
      · have hlt : i < hb.price_levels.length := hidx _ hi
        exact ⟨i, mem_insertPrice.mpr (Or.inr hi), by rwa [getD_append_lt _ _ _ _ hlt]⟩
      · subst hp
        refine ⟨hb.price_levels.length, mem_insertPrice.mpr (Or.inl rfl), ?_⟩
        rw [getD_append_self]
        simp

theorem addOrder_mem (hb : HalfBook) (o : Order) (price : Nat) (h : StructOk hb) :
    ∃ i, lookupPrice price (hb.addOrder o price).1.price_map = some i ∧
      o ∈ (hb.addOrder o price).1.price_levels.getD i [] := by
  obtain ⟨hs, hidx, hnd⟩ := h
  cases hlk : lookupPrice price hb.price_map with
  | some idx =>
    have hr : idx < hb.price_levels.length := hidx _ (lookupPrice_mem hlk)
    refine ⟨idx, ?_, ?_⟩
    · simp [HalfBook.addOrder, hlk]
    · simp only [HalfBook.addOrder, hlk]
      rw [getD_set_self _ _ _ _ hr]
      simp
  | none =>
    refine ⟨hb.price_levels.length, ?_, ?_⟩
    · simp only [HalfBook.addOrder, hlk]
      exact lookupPrice_insertPrice_self price _ _
    · simp only [HalfBook.addOrder, hlk]
      rw [getD_append_self]
      simp

/-! Lemmas about `bestNonEmpty` / `update_bbo`. -/

theorem bestNonEmpty_some_mem {pm : List (Nat × Nat)} {lvls : List (List Order)} {p : Nat}
    (h : bestNonEmpty pm lvls = some p) :
    ∃ pu ∈ pm, pu.1 = p ∧ lvls.getD pu.2 [] ≠ [] := by
  simp only [bestNonEmpty] at h
  cases hf : pm.find? (fun pu => !(lvls.getD pu.2 []).isEmpty) with
  | none => rw [hf] at h; simp at h
  | some pu =>
    rw [hf] at h
    simp only [Option.some.injEq] at h
    refine ⟨pu, List.mem_of_find?_eq_some hf, h, ?_⟩
    have := List.find?_some hf
    simpa [List.isEmpty_iff] using this

theorem bestNonEmpty_of_exists {pm : List (Nat × Nat)} {lvls : List (List Order)}
    {pu : Nat × Nat} (hmem : pu ∈ pm) (hne : lvls.getD pu.2 [] ≠ []) :
    ∃ p, bestNonEmpty pm lvls = some p := by
  have hex : ∃ qu ∈ pm, (!(lvls.getD qu.2 []).isEmpty) = true := by
    refine ⟨pu, hmem, ?_⟩
    simpa [List.isEmpty_iff] using hne
  obtain ⟨qu, hq⟩ := find?_of_exists hex
  refine ⟨qu.1, ?_⟩
  simp only [bestNonEmpty]
  rw [hq]

theorem bestNonEmpty_none {pm : List (Nat × Nat)} {lvls : List (List Order)}
    (h : bestNonEmpty pm lvls = none) :
    ∀ pu ∈ pm, lvls.getD pu.2 [] = [] := by
  intro pu hpu
  by_contra hne
  obtain ⟨p, hp⟩ := bestNonEmpty_of_exists hpu hne
  rw [hp] at h
  exact Option.noConfusion h

theorem bestNonEmpty_first {R : Nat × Nat → Nat × Nat → Prop}
    {pm : List (Nat × Nat)} {lvls : List (List Order)} {p : Nat}
    (hp : List.Pairwise R pm) (h : bestNonEmpty pm lvls = some p) :
    ∀ qu ∈ pm, lvls.getD qu.2 [] ≠ [] → qu.1 = p ∨ ∃ pu ∈ pm, pu.1 = p ∧ R pu qu := by
  simp only [bestNonEmpty] at h
  cases hf : pm.find? (fun pu => !(lvls.getD pu.2 []).isEmpty) with
  | none => rw [hf] at h; simp at h
  | some pu =>
    rw [hf] at h
    simp only [Option.some.injEq] at h
    subst h
    intro qu hqu hne
    have hpred : (!(lvls.getD qu.2 []).isEmpty) = true := by
      simpa [List.isEmpty_iff] using hne
    rcases find?_first hp hf qu hqu hpred with h1 | h1
    · exact Or.inl (by rw [h1])
    · exact Or.inr ⟨pu, List.mem_of_find?_eq_some hf, rfl, h1⟩

theorem update_bbo_bid_book (b : OrderBook) : b.update_bbo.bid_book = b.bid_book := rfl

theorem update_bbo_ask_book (b : OrderBook) : b.update_bbo.ask_book = b.ask_book := rfl

theorem update_bbo_order_loc (b : OrderBook) : b.update_bbo.order_loc = b.order_loc := rfl

theorem update_bbo_bid_nonEmpty (b : OrderBook) (hs : PmSorted b.bid_book.price_map)
    (h : HasNonEmpty b.bid_book) :
    nonEmptyAt b.bid_book b.update_bbo.best_bid_price ∧
      ∀ p, nonEmptyAt b.bid_book p → p ≤ b.update_bbo.best_bid_price := by
  obtain ⟨p0, i0, hmem, hne⟩ := h
  have hmemrev : ((p0, i0) : Nat × Nat) ∈ b.bid_book.price_map.reverse :=
    List.mem_reverse.mpr hmem
  obtain ⟨pb, hpb⟩ := bestNonEmpty_of_exists hmemrev hne
  have hbb : b.update_bbo.best_bid_price = pb := by
    simp [OrderBook.update_bbo, hpb]
  rw [hbb]
  have hprev : List.Pairwise (fun a b : Nat × Nat => b.1 < a.1) b.bid_book.price_map.reverse :=
    List.pairwise_reverse.mpr hs
  constructor
  · obtain ⟨pu, hpu, hfst, hpune⟩ := bestNonEmpty_some_mem hpb
    refine ⟨pu.2, ?_, hpune⟩
    rw [← hfst]
    exact List.mem_reverse.mp hpu
  · rintro p ⟨i, hi, hne2⟩
    have hirev : ((p, i) : Nat × Nat) ∈ b.bid_book.price_map.reverse :=
      List.mem_reverse.mpr hi
    rcases bestNonEmpty_first hprev hpb (p, i) hirev hne2 with h1 | h1
    · simp only at h1
      omega
    · obtain ⟨pu, hpu, hfst, hR⟩ := h1
      simp only at hR
      omega

theorem update_bbo_ask_nonEmpty (b : OrderBook) (hs : PmSorted b.ask_book.price_map)
    (h : HasNonEmpty b.ask_book) :
    nonEmptyAt b.ask_book b.update_bbo.best_ask_price ∧
      ∀ p, nonEmptyAt b.ask_book p → b.update_bbo.best_ask_price ≤ p := by
  obtain ⟨p0, i0, hmem, hne⟩ := h
  obtain ⟨pa, hpa⟩ := bestNonEmpty_of_exists hmem hne
  have hba : b.update_bbo.best_ask_price = pa := by
    simp [OrderBook.update_bbo, hpa]
  rw [hba]
  constructor
  · obtain ⟨pu, hpu, hfst, hpune⟩ := bestNonEmpty_some_mem hpa
    refine ⟨pu.2, ?_, hpune⟩
    rw [← hfst]
    exact hpu
  · rintro p ⟨i, hi, hne2⟩
    rcases bestNonEmpty_first hs hpa (p, i) hi hne2 with h1 | h1
    · simp only at h1
      omega
    · obtain ⟨pu, hpu, hfst, hR⟩ := h1
      simp only at hR
      omega

theorem update_bbo_bid_stale (b : OrderBook) (h : ∀ p, ¬nonEmptyAt b.bid_book p) :
    b.update_bbo.best_bid_price = b.best_bid_price := by
  cases hb : bestNonEmpty b.bid_book.price_map.reverse b.bid_book.price_levels with
  | none => simp [OrderBook.update_bbo, hb]
  | some p =>
    obtain ⟨pu, hpu, hfst, hne⟩ := bestNonEmpty_some_mem hb
    have hcon : nonEmptyAt b.bid_book pu.1 := ⟨pu.2, List.mem_reverse.mp hpu, hne⟩
    exact absurd hcon (h pu.1)

theorem update_bbo_ask_stale (b : OrderBook) (h : ∀ p, ¬nonEmptyAt b.ask_book p) :
    b.update_bbo.best_ask_price = b.best_ask_price := by
  cases hb : bestNonEmpty b.ask_book.price_map b.ask_book.price_levels with
  | none => simp [OrderBook.update_bbo, hb]
  | some p =>
    obtain ⟨pu, hpu, hfst, hne⟩ := bestNonEmpty_some_mem hb
    have hcon : nonEmptyAt b.ask_book pu.1 := ⟨pu.2, hpu, hne⟩
    exact absurd hcon (h pu.1)

theorem bboOk_update_bbo (b : OrderBook) (hsb : PmSorted b.bid_book.price_map)
    (hsa : PmSorted b.ask_book.price_map) : BboOk b.update_bbo := by
  constructor
  · intro h
    exact update_bbo_bid_nonEmpty b hsb h
  · intro h
    exact update_bbo_ask_nonEmpty b hsa h

/-! Component equations for `matchStep`, `create_new_limit_order` and
`add_limit_order` (all definitional). -/

theorem matchStep_bid_book (b : OrderBook) (price q : Nat) :
    (b.matchStep Side.Bid price q).1.bid_book = b.bid_book := rfl

theorem matchStep_ask_book (b : OrderBook) (price q : Nat) :
    (b.matchStep Side.Ask price q).1.ask_book = b.ask_book := rfl

theorem matchStep_bid_w (b : OrderBook) (price q : Nat) :
    (b.matchStep Side.Bid price q).2 =
      walkLevels (fun x => decide (x ≤ price)) b.ask_book.price_map
        b.ask_book.price_levels q b.order_loc [] := rfl

theorem matchStep_ask_w (b : OrderBook) (price q : Nat) :
    (b.matchStep Side.Ask price q).2 =
      walkLevels (fun x => decide (price ≤ x)) b.bid_book.price_map.reverse
        b.bid_book.price_levels q b.order_loc [] := rfl

theorem matchStep_bid_askbook (b : OrderBook) (price q : Nat) :
    (b.matchStep Side.Bid price q).1.ask_book =
      { b.ask_book with price_levels := (b.matchStep Side.Bid price q).2.levels } := rfl

theorem matchStep_ask_bidbook (b : OrderBook) (price q : Nat) :
    (b.matchStep Side.Ask price q).1.bid_book =
      { b.bid_book with price_levels := (b.matchStep Side.Ask price q).2.levels } := rfl

theorem matchStep_next_id (b : OrderBook) (s : Side) (price q : Nat) :
    (b.matchStep s price q).1.next_id = b.next_id := by
  cases s <;> rfl

theorem create_bid_book (b : OrderBook) (price qty : Nat) :
    (b.create_new_limit_order Side.Bid price qty).1.bid_book =
      (b.bid_book.addOrder ⟨b.next_id, qty⟩ price).1 := rfl

theorem create_bid_askbook (b : OrderBook) (price qty : Nat) :
    (b.create_new_limit_order Side.Bid price qty).1.ask_book = b.ask_book := rfl

theorem create_ask_book (b : OrderBook) (price qty : Nat) :
    (b.create_new_limit_order Side.Ask price qty).1.ask_book =
      (b.ask_book.addOrder ⟨b.next_id, qty⟩ price).1 := rfl

theorem create_ask_bidbook (b : OrderBook) (price qty : Nat) :
    (b.create_new_limit_order Side.Ask price qty).1.bid_book = b.bid_book := rfl

theorem add_limit_order_book (b : OrderBook) (s : Side) (price q : Nat) :
    (b.add_limit_order s price q).1 =
      (if (b.matchStep s price q).2.remaining ≠ 0
        then ((b.matchStep s price q).1.create_new_limit_order s price
          (b.matchStep s price q).2.remaining).1
        else (b.matchStep s price q).1).update_bbo := rfl

theorem add_limit_order_result (b : OrderBook) (s : Side) (price q : Nat) :
    (b.add_limit_order s price q).2 =
      { filled_orders := (b.matchStep s price q).2.fills,
        remaining_qty := (b.matchStep s price q).2.remaining,
        status :=
          if (b.matchStep s price q).2.remaining ≠ 0 then
            if (b.matchStep s price q).2.remaining = q then OrderStatus.Created
            else OrderStatus.PartiallyFilled
          else OrderStatus.Filled } := rfl

/-! Crossed levels are fully consumed whenever quantity is left over. -/

theorem walk_nonEmptyPair_shrink (cross : Nat → Bool) (pmwalk pm : List (Nat × Nat))
    (lvls : List (List Order)) (q : Nat) (loc : List (Nat × Side × Nat))
    (fills : List (Nat × Nat)) (p : Nat)
    (h : NonEmptyPair pm (walkLevels cross pmwalk lvls q loc fills).levels p) :
    NonEmptyPair pm lvls p := by
  obtain ⟨i, hi, hne⟩ := h
  exact ⟨i, hi, walk_shrink cross pmwalk lvls q loc fills i hne⟩

theorem walk_bid_crossed_empty (price : Nat) (pm : List (Nat × Nat))
    (lvls : List (List Order)) (q : Nat) (loc : List (Nat × Side × Nat))
    (fills : List (Nat × Nat)) (hs : PmSorted pm)
    (hrem : 0 < (walkLevels (fun x => decide (x ≤ price)) pm lvls q loc fills).remaining) :
    ∀ p, p ≤ price →
      ¬NonEmptyPair pm (walkLevels (fun x => decide (x ≤ price)) pm lvls q loc fills).levels p := by
  rintro p hle ⟨i, hi, hne⟩
  refine hne (walk_emptied _ pm lvls q loc fills hrem (p, i) ?_)
  refine mem_takeWhile_of_pairwise hs ?_ (p, i) hi ?_
  · intro a c hac hc
    simp only [decide_eq_true_eq] at hc ⊢
    omega
  · simp [hle]

theorem walk_ask_crossed_empty (price : Nat) (pm : List (Nat × Nat))
    (lvls : List (List Order)) (q : Nat) (loc : List (Nat × Side × Nat))
    (fills : List (Nat × Nat)) (hs : PmSorted pm)
    (hrem : 0 < (walkLevels (fun x => decide (price ≤ x)) pm.reverse lvls q loc fills).remaining) :
    ∀ p, price ≤ p →
      ¬NonEmptyPair pm (walkLevels (fun x => decide (price ≤ x)) pm.reverse lvls q loc fills).levels p := by
  rintro p hle ⟨i, hi, hne⟩
  refine hne (walk_emptied _ pm.reverse lvls q loc fills hrem (p, i) ?_)
  have hrev : List.Pairwise (fun a c : Nat × Nat => c.1 < a.1) pm.reverse :=
    List.pairwise_reverse.mpr hs
  refine mem_takeWhile_of_pairwise hrev ?_ (p, i) (List.mem_reverse.mpr hi) ?_
  · intro a c hac hc
    simp only [decide_eq_true_eq] at hc ⊢
    omega
  · simp [hle]

/-! Invariant preservation. -/

theorem structOk_new (s : Side) : StructOk (HalfBook.new s) := by
  refine ⟨?_, ?_, ?_⟩ <;> simp [HalfBook.new, PmSorted, IdxOk, IdxNodup]

theorem inv_new (sym : String) : Inv (OrderBook.new sym) := by
  refine ⟨structOk_new _, structOk_new _, ?_, ?_, ?_⟩
  · rintro p q ⟨i, hi, _⟩ hq
    simp [OrderBook.new, HalfBook.new] at hi
  · rintro ⟨p, i, hi, _⟩
    simp [OrderBook.new, HalfBook.new] at hi
  · rintro ⟨p, i, hi, _⟩
    simp [OrderBook.new, HalfBook.new] at hi

theorem inv_update_pre (b2 : OrderBook) (h1 : StructOk b2.bid_book)
    (h2 : StructOk b2.ask_book) (h3 : NotCrossed b2) : Inv b2.update_bbo :=
  ⟨h1, h2, h3, bboOk_update_bbo b2 h1.1 h2.1⟩

theorem structOk_after_bid_walk (b : OrderBook) (price qty : Nat)
    (hsa : StructOk b.ask_book) :
    StructOk { b.ask_book with price_levels := (b.matchStep Side.Bid price qty).2.levels } := by
  refine ⟨hsa.1, ?_, hsa.2.2⟩
  intro pu hpu
  show pu.2 < (b.matchStep Side.Bid price qty).2.levels.length
  rw [matchStep_bid_w, walk_levels_length]
  exact hsa.2.1 pu hpu

theorem structOk_after_ask_walk (b : OrderBook) (price qty : Nat)
    (hsb : StructOk b.bid_book) :
    StructOk { b.bid_book with price_levels := (b.matchStep Side.Ask price qty).2.levels } := by
  refine ⟨hsb.1, ?_, hsb.2.2⟩
  intro pu hpu
  show pu.2 < (b.matchStep Side.Ask price qty).2.levels.length
  rw [matchStep_ask_w, walk_levels_length]
  exact hsb.2.1 pu hpu

theorem inv_add_limit_order (b : OrderBook) (s : Side) (price qty : Nat) (h : Inv b) :
    Inv (b.add_limit_order s price qty).1 := by
  obtain ⟨hsb, hsa, hnc, hbbo⟩ := h
  cases s
  case Bid =>
    rw [add_limit_order_book]
    by_cases hrem : (b.matchStep Side.Bid price qty).2.remaining ≠ 0
    · rw [if_pos hrem]
      apply inv_update_pre
      · rw [create_bid_book, matchStep_bid_book]
        exact addOrder_structOk _ _ _ hsb
      · rw [create_bid_askbook, matchStep_bid_askbook]
        exact structOk_after_bid_walk b price qty hsa
      · rintro p q' hp hq'
        rw [create_bid_book, matchStep_bid_book] at hp
        rw [create_bid_askbook, matchStep_bid_askbook] at hq'
        have hq2 : NonEmptyPair b.ask_book.price_map
            (b.matchStep Side.Bid price qty).2.levels q' := hq'
        rw [matchStep_bid_w] at hq2
        have hshr : nonEmptyAt b.ask_book q' :=
          walk_nonEmptyPair_shrink _ _ _ _ _ _ _ _ hq2
        have h0 : 0 < (walkLevels (fun x => decide (x ≤ price)) b.ask_book.price_map
            b.ask_book.price_levels qty b.order_loc []).remaining := by
          rw [← matchStep_bid_w]
          omega
        have hgt : price < q' := by
          by_contra hle
          push_neg at hle
          exact walk_bid_crossed_empty price _ _ _ _ _ hsa.1 h0 q' hle hq2
        rcases (addOrder_nonEmpty_iff b.bid_book _ price hsb p).mp hp with hold | hpp
        · exact hnc p q' hold hshr
        · rw [hpp]
          exact hgt
    · rw [if_neg hrem]
      apply inv_update_pre
      · rw [matchStep_bid_book]
        exact hsb
      · rw [matchStep_bid_askbook]
        exact structOk_after_bid_walk b price qty hsa
      · rintro p q' hp hq'
        rw [matchStep_bid_book] at hp
        rw [matchStep_bid_askbook] at hq'
        have hq2 : NonEmptyPair b.ask_book.price_map
            (b.matchStep Side.Bid price qty).2.levels q' := hq'
        rw [matchStep_bid_w] at hq2
        exact hnc p q' hp (walk_nonEmptyPair_shrink _ _ _ _ _ _ _ _ hq2)
  case Ask =>
    rw [add_limit_order_book]
    by_cases hrem : (b.matchStep Side.Ask price qty).2.remaining ≠ 0
    · rw [if_pos hrem]
      apply inv_update_pre
      · rw [create_ask_bidbook, matchStep_ask_bidbook]
        exact structOk_after_ask_walk b price qty hsb
      · rw [create_ask_book, matchStep_ask_book]
        exact addOrder_structOk _ _ _ hsa
      · rintro p q' hp hq'
        rw [create_ask_bidbook, matchStep_ask_bidbook] at hp
        rw [create_ask_book, matchStep_ask_book] at hq'
        have hp2 : NonEmptyPair b.bid_book.price_map
            (b.matchStep Side.Ask price qty).2.levels p := hp
        rw [matchStep_ask_w] at hp2
        have hshr : nonEmptyAt b.bid_book p :=
          walk_nonEmptyPair_shrink _ _ _ _ _ _ _ _ hp2
        have h0 : 0 < (walkLevels (fun x => decide (price ≤ x)) b.bid_book.price_map.reverse
            b.bid_book.price_levels qty b.order_loc []).remaining := by
          rw [← matchStep_ask_w]
          omega
        have hlt : p < price := by
          by_contra hge
          push_neg at hge
          exact walk_ask_crossed_empty price _ _ _ _ _ hsb.1 h0 p hge hp2
        rcases (addOrder_nonEmpty_iff b.ask_book _ price hsa q').mp hq' with hold | hqq
        · exact hnc p q' hshr hold
        · rw [hqq]
          exact hlt
    · rw [if_neg hrem]
      apply inv_update_pre
      · rw [matchStep_ask_bidbook]
        exact structOk_after_ask_walk b price qty hsb
      · rw [matchStep_ask_book]
        exact hsa
      · rintro p q' hp hq'
        rw [matchStep_ask_bidbook] at hp
        rw [matchStep_ask_book] at hq'
        have hp2 : NonEmptyPair b.bid_book.price_map
            (b.matchStep Side.Ask price qty).2.levels p := hp
        rw [matchStep_ask_w] at hp2
        exact hnc p q' (walk_nonEmptyPair_shrink _ _ _ _ _ _ _ _ hp2) hq'

theorem reachable_inv {b : OrderBook} (h : ReachableBySubmits b) : Inv b := by
  induction h with
  | base sym => exact inv_new sym
  | step b s price qty hb ih => exact inv_add_limit_order b s price qty ih

/-! Lemmas about the order-location index, used by the cancel claims. -/

theorem locLookup_none_of_all (id : Nat) (l : List (Nat × Side × Nat))
    (h : ∀ e ∈ l, e.1 ≠ id) : locLookup id l = none := by
  induction l with
  | nil => simp [locLookup]
  | cons e rest ih =>
    obtain ⟨k, v⟩ := e
    have hk : k ≠ id := h (k, v) (List.mem_cons_self _ _)
    simp only [locLookup, if_neg (fun hh : id = k => hk hh.symm)]
    exact ih (fun e he => h e (List.mem_cons_of_mem _ he))

theorem locRemove_lookup_self (id : Nat) (l : List (Nat × Side × Nat)) :
    locLookup id (locRemove id l) = none := by
  refine locLookup_none_of_all id _ ?_
  intro e he
  have := (List.mem_filter.mp he).2
  simpa using this

/-- FIFO property of the matching pass: if some order of the level lost
quantity, every earlier order in the queue was driven to zero. -/
theorem matchPass_fifo (l : List Order) (q i j : Nat) (oj oj2 : Order)
    (hij : i < j) (hj : l.get? j = some oj)
    (hj2 : (matchPass l q).level.get? j = some oj2) (hne : oj2.qty ≠ oj.qty) :
    ∃ oi, (matchPass l q).level.get? i = some oi ∧ oi.qty = 0 := by
  induction l generalizing q i j with
  | nil => simp at hj
  | cons o rest ih =>
    by_cases hle : o.qty ≤ q
    · simp only [matchPass, if_pos hle] at hj2 ⊢
      cases i with
      | zero => exact ⟨⟨o.order_id, 0⟩, by simp, rfl⟩
      | succ i2 =>
        cases j with
        | zero => omega
        | succ j2 =>
          simp only [List.get?_cons_succ] at hj hj2 ⊢
          exact ih (q - o.qty) i2 j2 (by omega) hj hj2
    · simp only [matchPass, if_neg hle] at hj2
      cases j with
      | zero => omega
      | succ j2 =>
        simp only [List.get?_cons_succ] at hj hj2
        rw [matchPass_zero_level] at hj2
        rw [hj] at hj2
        cases hj2
        exact absurd rfl hne

/-- Conservation through the matching loop, stated on `matchStep`. -/
theorem matchStep_conservation (b : OrderBook) (s : Side) (price qty : Nat) :
    sumFilled (b.matchStep s price qty).2.fills +
      (b.matchStep s price qty).2.remaining = qty := by
  have h0 : sumFilled ([] : List (Nat × Nat)) = 0 := rfl
  cases s
  case Bid =>
    rw [matchStep_bid_w]
    have h := walk_conservation (fun x => decide (x ≤ price)) b.ask_book.price_map
      b.ask_book.price_levels qty b.order_loc []
    rw [h0, Nat.add_zero] at h
    omega
  case Ask =>
    rw [matchStep_ask_w]
    have h := walk_conservation (fun x => decide (price ≤ x)) b.bid_book.price_map.reverse
      b.bid_book.price_levels qty b.order_loc []
    rw [h0, Nat.add_zero] at h
    omega

/-! Claim theorems. -/

/-- C1, counterexample: the submit sequence `Ask 100 x10`, `Bid 100 x10`,
`Bid 150 x5` from a fresh book leaves `best_bid_price = 150` and
`best_ask_price = 100`, both non-sentinel (`0` is the "no bid" sentinel and
`U64MAX` the "no ask" sentinel), with `best_bid_price < best_ask_price` FALSE:
the second submit consumed the whole ask side, `update_bbo` left the stale
`100`, and the third bid then rested above it.  This refutes the claim as
stated. -/
theorem c1_counterexample :
    ((((OrderBook.new "S").add_limit_order Side.Ask 100 10).1.add_limit_order
        Side.Bid 100 10).1.add_limit_order Side.Bid 150 5).1.best_bid_price ≠ 0 ∧
    ((((OrderBook.new "S").add_limit_order Side.Ask 100 10).1.add_limit_order
        Side.Bid 100 10).1.add_limit_order Side.Bid 150 5).1.best_ask_price ≠ U64MAX ∧
    ¬(((((OrderBook.new "S").add_limit_order Side.Ask 100 10).1.add_limit_order
        Side.Bid 100 10).1.add_limit_order Side.Bid 150 5).1.best_bid_price <
      ((((OrderBook.new "S").add_limit_order Side.Ask 100 10).1.add_limit_order
        Side.Bid 100 10).1.add_limit_order Side.Bid 150 5).1.best_ask_price) := by
  decide

/-- C2, counterexample: after `Ask 100 x10` then `Bid 100 x10` from a fresh
book, every ask level is empty (the side was fully consumed by matching), yet
`best_ask_price` is the stale `100`, not the `U64MAX` sentinel the claim
requires. -/
theorem c2_counterexample :
    (∀ pu ∈ (((OrderBook.new "S").add_limit_order Side.Ask 100 10).1.add_limit_order
        Side.Bid 100 10).1.ask_book.price_map,
      (((OrderBook.new "S").add_limit_order Side.Ask 100 10).1.add_limit_order
        Side.Bid 100 10).1.ask_book.price_levels.getD pu.2 [] = []) ∧
    (((OrderBook.new "S").add_limit_order Side.Ask 100 10).1.add_limit_order
        Side.Bid 100 10).1.best_ask_price = 100 ∧
    (100 : Nat) ≠ U64MAX := by
  decide

/-- C7, code evaluated at the failing input: submitting quantity 0 on a fresh
book is NOT rejected — there is no quantity validation anywhere in the source —
it runs the whole submit pipeline and returns a successful `FillResult` with
status `Filled` (remaining 0, nothing filled), leaving the book unchanged,
where the claim requires an `InvalidQuantity` error. -/
theorem c7_zero_qty_eval :
    ((OrderBook.new "S").add_limit_order Side.Bid 100 0).2 =
      { filled_orders := [], remaining_qty := 0, status := OrderStatus.Filled } ∧
    ((OrderBook.new "S").add_limit_order Side.Bid 100 0).1 = OrderBook.new "S" := by
  decide

/-- C9, code evaluated at the failing input: a submit on an empty book fills
nothing, so the fill result has `filled_orders = []` and the denominator
`total_qty` of the division in `avg_fill_price` is 0 — yet the source performs
the `f32` division unconditionally (`0.0 / 0.0`, i.e. NaN, embedded here as
`none`), it does not fail with an `UndefinedAverage` error as the claim
requires (no such error exists in the source). -/
theorem c9_avg_eval :
    ((OrderBook.new "S").add_limit_order Side.Ask 100 10).2.filled_orders = [] ∧
    ((OrderBook.new "S").add_limit_order Side.Ask 100 10).2.avg_totals.2 = 0 ∧
    ((OrderBook.new "S").add_limit_order Side.Ask 100 10).2.avg_fill_price = none := by
  refine ⟨by decide, by decide, ?_⟩
  rw [FillResult.avg_fill_price, if_pos (by decide)]

/-- C1 (amended): for every sequence of submits starting from a fresh
`OrderBook`, whenever both the bid and the ask ladder still contain at least
one non-empty price level, `best_bid_price < best_ask_price` holds.  (The
original claim's "both best prices non-sentinel" guard is insufficient: a side
that was fully consumed keeps its stale, non-sentinel best price, which the
counterexample crosses.  With the guard on the actual ladders the no-crossed-
book property is provable for all submit sequences.) -/
theorem c1_amended_no_crossed_book (b : OrderBook) (h : ReachableBySubmits b)
    (hbid : HasNonEmpty b.bid_book) (hask : HasNonEmpty b.ask_book) :
    b.best_bid_price < b.best_ask_price := by
  obtain ⟨hsb, hsa, hnc, hbbo⟩ := reachable_inv h
  exact hnc _ _ (hbbo.1 hbid).1 (hbbo.2 hask).1

/-- Witness for C1 (amended): the book after submitting `Bid 90 x1` and
`Ask 100 x2` has both ladders non-empty, and the theorem yields
`best_bid_price < best_ask_price` there. -/
theorem c1_amended_witness :
    (((OrderBook.new "S").add_limit_order Side.Bid 90 1).1.add_limit_order
        Side.Ask 100 2).1.best_bid_price <
    (((OrderBook.new "S").add_limit_order Side.Bid 90 1).1.add_limit_order
        Side.Ask 100 2).1.best_ask_price :=
  c1_amended_no_crossed_book _
    (ReachableBySubmits.step _ Side.Ask 100 2
      (ReachableBySubmits.step _ Side.Bid 90 1 (ReachableBySubmits.base "S")))
    ⟨90, 0, by decide, by decide⟩
    ⟨100, 0, by decide, by decide⟩

/-- C2 (amended): on any book whose price maps are sorted (as `BTreeMap`
guarantees), `update_bbo` leaves both ladders and the order index unchanged;
when a side has a non-empty level its best price is set to that side's best
non-empty price (highest bid / lowest ask); when a side has NO non-empty level
its best price field is left unchanged — the stale former best price, not the
sentinel, in particular after the side was fully consumed by matching. -/
theorem c2_amended_update_bbo (b : OrderBook)
    (hsb : PmSorted b.bid_book.price_map) (hsa : PmSorted b.ask_book.price_map) :
    b.update_bbo.bid_book = b.bid_book ∧
    b.update_bbo.ask_book = b.ask_book ∧
    b.update_bbo.order_loc = b.order_loc ∧
    (HasNonEmpty b.bid_book →
      nonEmptyAt b.bid_book b.update_bbo.best_bid_price ∧
      ∀ p, nonEmptyAt b.bid_book p → p ≤ b.update_bbo.best_bid_price) ∧
    ((∀ p, ¬nonEmptyAt b.bid_book p) → b.update_bbo.best_bid_price = b.best_bid_price) ∧
    (HasNonEmpty b.ask_book →
      nonEmptyAt b.ask_book b.update_bbo.best_ask_price ∧
      ∀ p, nonEmptyAt b.ask_book p → b.update_bbo.best_ask_price ≤ p) ∧
    ((∀ p, ¬nonEmptyAt b.ask_book p) → b.update_bbo.best_ask_price = b.best_ask_price) :=
  ⟨rfl, rfl, rfl, update_bbo_bid_nonEmpty b hsb, update_bbo_bid_stale b,
   update_bbo_ask_nonEmpty b hsa, update_bbo_ask_stale b⟩

/-- Witness for C2 (amended), at the book after `Ask 100 x10` then
`Bid 100 x4` (a non-empty ask side and an empty bid side). -/
theorem c2_amended_witness :
    (((OrderBook.new "S").add_limit_order Side.Ask 100 10).1.add_limit_order
        Side.Bid 100 4).1.update_bbo.bid_book =
      (((OrderBook.new "S").add_limit_order Side.Ask 100 10).1.add_limit_order
        Side.Bid 100 4).1.bid_book ∧
    (((OrderBook.new "S").add_limit_order Side.Ask 100 10).1.add_limit_order
        Side.Bid 100 4).1.update_bbo.ask_book =
      (((OrderBook.new "S").add_limit_order Side.Ask 100 10).1.add_limit_order
        Side.Bid 100 4).1.ask_book ∧
    (((OrderBook.new "S").add_limit_order Side.Ask 100 10).1.add_limit_order
        Side.Bid 100 4).1.update_bbo.order_loc =
      (((OrderBook.new "S").add_limit_order Side.Ask 100 10).1.add_limit_order
        Side.Bid 100 4).1.order_loc ∧
    (HasNonEmpty (((OrderBook.new "S").add_limit_order Side.Ask 100 10).1.add_limit_order
        Side.Bid 100 4).1.bid_book →
      nonEmptyAt (((OrderBook.new "S").add_limit_order Side.Ask 100 10).1.add_limit_order
          Side.Bid 100 4).1.bid_book
        (((OrderBook.new "S").add_limit_order Side.Ask 100 10).1.add_limit_order
          Side.Bid 100 4).1.update_bbo.best_bid_price ∧
      ∀ p, nonEmptyAt (((OrderBook.new "S").add_limit_order Side.Ask 100 10).1.add_limit_order
          Side.Bid 100 4).1.bid_book p →
        p ≤ (((OrderBook.new "S").add_limit_order Side.Ask 100 10).1.add_limit_order
          Side.Bid 100 4).1.update_bbo.best_bid_price) ∧
    ((∀ p, ¬nonEmptyAt (((OrderBook.new "S").add_limit_order Side.Ask 100 10).1.add_limit_order
        Side.Bid 100 4).1.bid_book p) →
      (((OrderBook.new "S").add_limit_order Side.Ask 100 10).1.add_limit_order
        Side.Bid 100 4).1.update_bbo.best_bid_price =
      (((OrderBook.new "S").add_limit_order Side.Ask 100 10).1.add_limit_order
        Side.Bid 100 4).1.best_bid_price) ∧
    (HasNonEmpty (((OrderBook.new "S").add_limit_order Side.Ask 100 10).1.add_limit_order
        Side.Bid 100 4).1.ask_book →
      nonEmptyAt (((OrderBook.new "S").add_limit_order Side.Ask 100 10).1.add_limit_order
          Side.Bid 100 4).1.ask_book
        (((OrderBook.new "S").add_limit_order Side.Ask 100 10).1.add_limit_order
          Side.Bid 100 4).1.update_bbo.best_ask_price ∧
      ∀ p, nonEmptyAt (((OrderBook.new "S").add_limit_order Side.Ask 100 10).1.add_limit_order
          Side.Bid 100 4).1.ask_book p →
        (((OrderBook.new "S").add_limit_order Side.Ask 100 10).1.add_limit_order
          Side.Bid 100 4).1.update_bbo.best_ask_price ≤ p) ∧
    ((∀ p, ¬nonEmptyAt (((OrderBook.new "S").add_limit_order Side.Ask 100 10).1.add_limit_order
        Side.Bid 100 4).1.ask_book p) →
      (((OrderBook.new "S").add_limit_order Side.Ask 100 10).1.add_limit_order
        Side.Bid 100 4).1.update_bbo.best_ask_price =
      (((OrderBook.new "S").add_limit_order Side.Ask 100 10).1.add_limit_order
        Side.Bid 100 4).1.best_ask_price) :=
  c2_amended_update_bbo _ (by decide) (by decide)

/-- C3: quantity conservation — for every book, side, price and quantity, the
sum of the filled quantities over the returned fill entries plus the returned
remaining quantity equals the submitted quantity. -/
theorem c3_quantity_conservation (b : OrderBook) (s : Side) (price qty : Nat) :
    sumFilled (b.add_limit_order s price qty).2.filled_orders +
      (b.add_limit_order s price qty).2.remaining_qty = qty := by
  show sumFilled (b.matchStep s price qty).2.fills +
    (b.matchStep s price qty).2.remaining = qty
  exact matchStep_conservation b s price qty

/-- C4: FIFO within one price level, and Scenario D.  First conjunct: in the
matching pass over a level, if the order at queue position `j` lost quantity
then every earlier position `i < j` ended at quantity 0 — a later-arrived
order is never touched while an earlier one still has quantity.  Remaining
conjuncts: with asks resting at price 50 of qty 5 (id 0) then qty 3 (id 1), an
incoming `Bid 50 x6` returns the single aggregated fill entry `(6, 50)` with
remaining 0 and status `Filled`, and leaves only the later order, reduced to
qty 2, resting. -/
theorem c4_fifo_and_scenario_d :
    (∀ (l : List Order) (q i j : Nat) (oj oj2 : Order), i < j →
      l.get? j = some oj → (matchPass l q).level.get? j = some oj2 →
      oj2.qty ≠ oj.qty →
      ∃ oi, (matchPass l q).level.get? i = some oi ∧ oi.qty = 0) ∧
    ((((OrderBook.new "S").add_limit_order Side.Ask 50 5).1.add_limit_order
        Side.Ask 50 3).1.add_limit_order Side.Bid 50 6).2 =
      { filled_orders := [(6, 50)], remaining_qty := 0,
        status := OrderStatus.Filled } ∧
    ((((OrderBook.new "S").add_limit_order Side.Ask 50 5).1.add_limit_order
        Side.Ask 50 3).1.add_limit_order Side.Bid 50 6).1.ask_book.price_levels =
      [[⟨1, 2⟩]] := by
  exact ⟨fun l q i j oj oj2 hij hj hj2 hne => matchPass_fifo l q i j oj oj2 hij hj hj2 hne,
    by decide, by decide⟩

/-- Witness for C4: at the level `[⟨10, 5⟩, ⟨11, 3⟩]` with incoming quantity 6,
position 1 lost quantity (3 to 2), and the theorem yields a zero-quantity
order at position 0. -/
theorem c4_fifo_witness :
    ∃ oi, (matchPass [⟨10, 5⟩, ⟨11, 3⟩] 6).level.get? 0 = some oi ∧ oi.qty = 0 :=
  c4_fifo_and_scenario_d.1 [⟨10, 5⟩, ⟨11, 3⟩] 6 0 1 ⟨11, 3⟩ ⟨11, 2⟩
    (by decide) (by decide) (by decide) (by decide)

/-- C5: for every submit of positive quantity on a reachable book, the status
is `Filled` when the remaining quantity is 0, `Created` when nothing at all
was filled (remaining equals the submitted quantity), `PartiallyFilled`
otherwise; and a submit that fills nothing (crosses zero opposing levels)
returns `Created` with the full quantity resting as a new order (the fresh id
`b.next_id`) on its own side at the submitted price. -/
theorem c5_status_and_created (b : OrderBook) (hr : ReachableBySubmits b)
    (s : Side) (price qty : Nat) (hq : 0 < qty) :
    ((b.add_limit_order s price qty).2.status =
      if (b.add_limit_order s price qty).2.remaining_qty = 0 then OrderStatus.Filled
      else if (b.add_limit_order s price qty).2.remaining_qty = qty then OrderStatus.Created
      else OrderStatus.PartiallyFilled) ∧
    ((b.add_limit_order s price qty).2.filled_orders = [] →
      (b.add_limit_order s price qty).2.status = OrderStatus.Created ∧
      (b.add_limit_order s price qty).2.remaining_qty = qty ∧
      ∃ i, lookupPrice price (sideBook (b.add_limit_order s price qty).1 s).price_map = some i ∧
        (⟨b.next_id, qty⟩ : Order) ∈
          (sideBook (b.add_limit_order s price qty).1 s).price_levels.getD i []) := by
  obtain ⟨hsb, hsa, hnc, hbbo⟩ := reachable_inv hr
  constructor
  · show (if (b.matchStep s price qty).2.remaining ≠ 0 then
        (if (b.matchStep s price qty).2.remaining = qty then OrderStatus.Created
          else OrderStatus.PartiallyFilled)
        else OrderStatus.Filled) =
      if (b.matchStep s price qty).2.remaining = 0 then OrderStatus.Filled
      else if (b.matchStep s price qty).2.remaining = qty then OrderStatus.Created
      else OrderStatus.PartiallyFilled
    by_cases h0 : (b.matchStep s price qty).2.remaining = 0
    · simp [h0]
    · simp [h0]
  · intro hfe
    have hfe2 : (b.matchStep s price qty).2.fills = [] := hfe
    have hrem : (b.matchStep s price qty).2.remaining = qty := by
      have h := matchStep_conservation b s price qty
      rw [hfe2] at h
      simpa [sumFilled] using h
    have hne : (b.matchStep s price qty).2.remaining ≠ 0 := by omega
    refine ⟨?_, hrem, ?_⟩
    · show (if (b.matchStep s price qty).2.remaining ≠ 0 then
          (if (b.matchStep s price qty).2.remaining = qty then OrderStatus.Created
            else OrderStatus.PartiallyFilled)
          else OrderStatus.Filled) = OrderStatus.Created
      rw [if_pos hne, if_pos hrem]
    · cases s
      case Bid =>
        have hbb : sideBook (b.add_limit_order Side.Bid price qty).1 Side.Bid =
            (b.bid_book.addOrder
              ⟨b.next_id, (b.matchStep Side.Bid price qty).2.remaining⟩ price).1 := by
          show (b.add_limit_order Side.Bid price qty).1.bid_book = _
          rw [add_limit_order_book, if_pos hne, update_bbo_bid_book, create_bid_book,
            matchStep_bid_book, matchStep_next_id]
        rw [hbb, hrem]
        exact addOrder_mem b.bid_book ⟨b.next_id, qty⟩ price hsb
      case Ask =>
        have hab : sideBook (b.add_limit_order Side.Ask price qty).1 Side.Ask =
            (b.ask_book.addOrder
              ⟨b.next_id, (b.matchStep Side.Ask price qty).2.remaining⟩ price).1 := by
          show (b.add_limit_order Side.Ask price qty).1.ask_book = _
          rw [add_limit_order_book, if_pos hne, update_bbo_ask_book, create_ask_book,
            matchStep_ask_book, matchStep_next_id]
        rw [hab, hrem]
        exact addOrder_mem b.ask_book ⟨b.next_id, qty⟩ price hsa

/-- Witness for C5: submitting `Bid 100 x5` on a fresh book fills nothing, so
the status rule and the `Created`-with-resting-order conclusions hold there. -/
theorem c5_witness :
    (((OrderBook.new "S").add_limit_order Side.Bid 100 5).2.status =
      if ((OrderBook.new "S").add_limit_order Side.Bid 100 5).2.remaining_qty = 0
        then OrderStatus.Filled
      else if ((OrderBook.new "S").add_limit_order Side.Bid 100 5).2.remaining_qty = 5
        then OrderStatus.Created
      else OrderStatus.PartiallyFilled) ∧
    (((OrderBook.new "S").add_limit_order Side.Bid 100 5).2.filled_orders = [] →
      ((OrderBook.new "S").add_limit_order Side.Bid 100 5).2.status = OrderStatus.Created ∧
      ((OrderBook.new "S").add_limit_order Side.Bid 100 5).2.remaining_qty = 5 ∧
      ∃ i, lookupPrice 100
          (sideBook ((OrderBook.new "S").add_limit_order Side.Bid 100 5).1 Side.Bid).price_map =
            some i ∧
        (⟨(OrderBook.new "S").next_id, 5⟩ : Order) ∈
          (sideBook ((OrderBook.new "S").add_limit_order Side.Bid 100 5).1
            Side.Bid).price_levels.getD i []) :=
  c5_status_and_created (OrderBook.new "S") (ReachableBySubmits.base "S")
    Side.Bid 100 5 (by decide)

/-- C6: cancelling an id that is not in the order index fails with the
unknown-id error and leaves the book untouched; cancelling a resting id (whose
recorded level index is in range, as the program guarantees for its own
states — the source asserts this with `unwrap`) succeeds exactly once: the
order is removed from its price level's queue and from the index, and a
second cancel of the same id fails with the unknown-id error. -/
theorem c6_cancel_semantics (b : OrderBook) (id : Nat) :
    (locLookup id b.order_loc = none →
      b.cancel_order id = some (b, CancelResult.err)) ∧
    (∀ sd idx, locLookup id b.order_loc = some (sd, idx) →
      idx < (sideBook b sd).price_levels.length →
      ∃ b2, b.cancel_order id = some (b2, CancelResult.ok id) ∧
        locLookup id b2.order_loc = none ∧
        (∀ o ∈ (sideBook b2 sd).price_levels.getD idx [], o.order_id ≠ id) ∧
        b2.cancel_order id = some (b2, CancelResult.err)) := by
  constructor
  · intro h
    simp [OrderBook.cancel_order, h]
  · intro sd idx hlk hidx
    cases sd
    case Ask =>
      have hidx2 : idx < b.ask_book.price_levels.length := hidx
      obtain ⟨dq, hdq⟩ : ∃ dq, b.ask_book.price_levels.get? idx = some dq :=
        ⟨_, List.get?_eq_get hidx2⟩
      have hdqa : b.ask_book.price_levels[idx]? = some dq := by simpa using hdq
      refine ⟨{ b with
          ask_book := { b.ask_book with
            price_levels := b.ask_book.price_levels.set idx
              (dq.filter (fun o => o.order_id ≠ id)) },
          order_loc := locRemove id b.order_loc }, ?_, ?_, ?_, ?_⟩
      · simp [OrderBook.cancel_order, hlk, hdqa]
      · exact locRemove_lookup_self id b.order_loc
      · show ∀ o ∈ (b.ask_book.price_levels.set idx
            (dq.filter (fun o => o.order_id ≠ id))).getD idx [], o.order_id ≠ id
        rw [getD_set_self _ _ _ _ hidx2]
        intro o ho
        have := (List.mem_filter.mp ho).2
        simpa using this
      · simp [OrderBook.cancel_order, locRemove_lookup_self id b.order_loc]
    case Bid =>
      have hidx2 : idx < b.bid_book.price_levels.length := hidx
      obtain ⟨dq, hdq⟩ : ∃ dq, b.bid_book.price_levels.get? idx = some dq :=
        ⟨_, List.get?_eq_get hidx2⟩
      have hdqa : b.bid_book.price_levels[idx]? = some dq := by simpa using hdq
      refine ⟨{ b with
          bid_book := { b.bid_book with
            price_levels := b.bid_book.price_levels.set idx
              (dq.filter (fun o => o.order_id ≠ id)) },
          order_loc := locRemove id b.order_loc }, ?_, ?_, ?_, ?_⟩
      · simp [OrderBook.cancel_order, hlk, hdqa]
      · exact locRemove_lookup_self id b.order_loc
      · show ∀ o ∈ (b.bid_book.price_levels.set idx
            (dq.filter (fun o => o.order_id ≠ id))).getD idx [], o.order_id ≠ id
        rw [getD_set_self _ _ _ _ hidx2]
        intro o ho
        have := (List.mem_filter.mp ho).2
        simpa using this
      · simp [OrderBook.cancel_order, locRemove_lookup_self id b.order_loc]

/-- Witness for C6, on the book holding one resting ask (id 0): cancelling the
unknown id 99 errs, cancelling id 0 succeeds with the stated removals, and the
second cancel of id 0 errs. -/
theorem c6_witness :
    (((OrderBook.new "S").add_limit_order Side.Ask 100 10).1.cancel_order 99 =
      some (((OrderBook.new "S").add_limit_order Side.Ask 100 10).1, CancelResult.err)) ∧
    (∃ b2, ((OrderBook.new "S").add_limit_order Side.Ask 100 10).1.cancel_order 0 =
        some (b2, CancelResult.ok 0) ∧
      locLookup 0 b2.order_loc = none ∧
      (∀ o ∈ (sideBook b2 Side.Ask).price_levels.getD 0 [], o.order_id ≠ 0) ∧
      b2.cancel_order 0 = some (b2, CancelResult.err)) :=
  ⟨(c6_cancel_semantics _ 99).1 (by decide),
   (c6_cancel_semantics _ 0).2 Side.Ask 0 (by decide) (by decide)⟩

/-- C8: `get_total_qty` fails (the missing-key indexing panic, the failure the
spec names `UnknownPriceLevel`) when no level exists at the price; when a
level exists it returns the sum of the remaining quantities of the orders in
it — in particular `0`, not a failure, for a level that exists but is empty. -/
theorem c8_total_qty (hb : HalfBook) (price : Nat) :
    (lookupPrice price hb.price_map = none → hb.get_total_qty price = none) ∧
    (∀ idx lvl, lookupPrice price hb.price_map = some idx →
      hb.price_levels.get? idx = some lvl →
      hb.get_total_qty price = some ((lvl.map Order.qty).sum) ∧
      (lvl = [] → hb.get_total_qty price = some 0)) := by
  constructor
  · intro h
    simp [HalfBook.get_total_qty, h]
  · intro idx lvl h1 h2
    have h2a : hb.price_levels[idx]? = some lvl := by simpa using h2
    constructor
    · simp [HalfBook.get_total_qty, h1, h2a]
    · intro h3
      subst h3
      simp [HalfBook.get_total_qty, h1, h2a]

/-- Witness for C8: a half book with a level of total quantity 10 at price
100, no level at price 99, and an existing-but-empty level at price 101. -/
theorem c8_witness :
    (⟨Side.Ask, [(100, 0), (101, 1)], [[⟨0, 4⟩, ⟨1, 6⟩], []]⟩ : HalfBook).get_total_qty 99 =
      none ∧
    (⟨Side.Ask, [(100, 0), (101, 1)], [[⟨0, 4⟩, ⟨1, 6⟩], []]⟩ : HalfBook).get_total_qty 100 =
      some 10 ∧
    (⟨Side.Ask, [(100, 0), (101, 1)], [[⟨0, 4⟩, ⟨1, 6⟩], []]⟩ : HalfBook).get_total_qty 101 =
      some 0 := by
  refine ⟨?_, ?_, ?_⟩
  · exact (c8_total_qty _ 99).1 (by decide)
  · have h := ((c8_total_qty ⟨Side.Ask, [(100, 0), (101, 1)], [[⟨0, 4⟩, ⟨1, 6⟩], []]⟩ 100).2
      0 [⟨0, 4⟩, ⟨1, 6⟩] (by decide) (by decide)).1
    simpa using h
  · exact ((c8_total_qty _ 101).2 1 [] (by decide) (by decide)).2 rfl

/-- C10: whenever `cancel_order` returns (success or failure), the cached
`best_bid_price` and `best_ask_price` are unchanged — cancel never recomputes
the BBO — and on failure the whole book is unchanged, while on success every
price-level queue other than the one the cancelled order rested in (recorded
in the order index) is unchanged. -/
theorem c10_cancel_frame (b b2 : OrderBook) (id : Nat) (r : CancelResult)
    (h : b.cancel_order id = some (b2, r)) :
    b2.best_bid_price = b.best_bid_price ∧
    b2.best_ask_price = b.best_ask_price ∧
    (locLookup id b.order_loc = none → b2 = b) ∧
    (∀ sd idx, locLookup id b.order_loc = some (sd, idx) →
      ∀ sd2 idx2, sd2 ≠ sd ∨ idx2 ≠ idx →
        (sideBook b2 sd2).price_levels.get? idx2 =
          (sideBook b sd2).price_levels.get? idx2) := by
  cases hlk : locLookup id b.order_loc with
  | none =>
    simp only [OrderBook.cancel_order, hlk, Option.some.injEq, Prod.mk.injEq] at h
    obtain ⟨hb2, hr⟩ := h
    subst hb2
    refine ⟨rfl, rfl, fun _ => rfl, ?_⟩
    intro sd idx hlk0 sd2 idx2 hne
    exact Option.noConfusion hlk0
  | some sv =>
    obtain ⟨sd, idx⟩ := sv
    cases sd
    case Ask =>
      simp only [OrderBook.cancel_order, hlk] at h
      cases hdq : b.ask_book.price_levels.get? idx with
      | none =>
        rw [hdq] at h
        exact Option.noConfusion h
      | some dq =>
        rw [hdq] at h
        simp only [Option.some.injEq, Prod.mk.injEq] at h
        obtain ⟨hb2, hr⟩ := h
        subst hb2
        refine ⟨rfl, rfl, ?_, ?_⟩
        · intro hnone
          exact Option.noConfusion hnone
        · intro sd0 idx0 hlk0 sd2 idx2 hne
          injection hlk0 with hp
          injection hp with h1 h2
          subst h1
          subst h2
          cases sd2
          case Ask =>
            rcases hne with hs | hi
            · exact absurd rfl hs
            · show (b.ask_book.price_levels.set idx
                  (dq.filter (fun o => o.order_id ≠ id))).get? idx2 =
                b.ask_book.price_levels.get? idx2
              rw [List.get?_eq_getElem?, List.get?_eq_getElem?]
              exact List.getElem?_set_ne (Ne.symm hi)
          case Bid => rfl
    case Bid =>
      simp only [OrderBook.cancel_order, hlk] at h
      cases hdq : b.bid_book.price_levels.get? idx with
      | none =>
        rw [hdq] at h
        exact Option.noConfusion h
      | some dq =>
        rw [hdq] at h
        simp only [Option.some.injEq, Prod.mk.injEq] at h
        obtain ⟨hb2, hr⟩ := h
        subst hb2
        refine ⟨rfl, rfl, ?_, ?_⟩
        · intro hnone
          exact Option.noConfusion hnone
        · intro sd0 idx0 hlk0 sd2 idx2 hne
          injection hlk0 with hp
          injection hp with h1 h2
          subst h1
          subst h2
          cases sd2
          case Ask => rfl
          case Bid =>
            rcases hne with hs | hi
            · exact absurd rfl hs
            · show (b.bid_book.price_levels.set idx
                  (dq.filter (fun o => o.order_id ≠ id))).get? idx2 =
                b.bid_book.price_levels.get? idx2
              rw [List.get?_eq_getElem?, List.get?_eq_getElem?]
              exact List.getElem?_set_ne (Ne.symm hi)

/-- Witness for C10: the successful cancel of id 0 on the one-resting-ask
book keeps both best prices and every other level unchanged. -/
theorem c10_witness :
    exampleOneAskCancelled.best_bid_price = exampleOneAsk.best_bid_price ∧
    exampleOneAskCancelled.best_ask_price = exampleOneAsk.best_ask_price ∧
    (locLookup 0 exampleOneAsk.order_loc = none →
      exampleOneAskCancelled = exampleOneAsk) ∧
    (∀ sd idx, locLookup 0 exampleOneAsk.order_loc = some (sd, idx) →
      ∀ sd2 idx2, sd2 ≠ sd ∨ idx2 ≠ idx →
        (sideBook exampleOneAskCancelled sd2).price_levels.get? idx2 =
          (sideBook exampleOneAsk sd2).price_levels.get? idx2) :=
  c10_cancel_frame exampleOneAsk exampleOneAskCancelled 0 (CancelResult.ok 0) (by decide)

end Engine
